import Mathlib

/-!
Shallow embedding of the ICN testnet monitor's log-driven topology
reconstruction engine (`testnet/monitor.py`): the data model (`Node`,
`Connection`, `Message`), the federation and status classifiers, and the
`parse_logs` ingestion pass, together with theorems settling the spec's
claims about them.
-/

set_option maxRecDepth 20000

/-- Mirrors `class Node.__init__` of monitor.py: identity, derived federation,
optional overlay address, peer/tunnel sets, message counters, last-seen time
and derived status string.  Times are modelled as rationals. -/
structure Node where
  node_id : String
  federation : Option String
  address : Option String
  peers : Finset String
  tunnels : Finset String
  messages_sent : Nat
  messages_received : Nat
  last_seen : ℚ
  status : String
deriving DecidableEq

/-- `Node(node_id, federation)`: the constructor's default field values. -/
def Node.init (node_id : String) (federation : Option String) : Node :=
  { node_id := node_id
    federation := federation
    address := none
    peers := ∅
    tunnels := ∅
    messages_sent := 0
    messages_received := 0
    last_seen := 0
    status := "unknown" }

/-- Mirrors `class Connection.__init__`. -/
structure Connection where
  source : String
  dest : String
  tunnel_type : Option String
  messages : Nat
  last_message : ℚ
deriving DecidableEq

/-- `Connection(source, dest)`: the constructor's default field values. -/
def Connection.init (source dest : String) : Connection :=
  { source := source, dest := dest, tunnel_type := none, messages := 0, last_message := 0 }

/-- Mirrors `class Message.__init__`. -/
structure Message where
  source : String
  dest : String
  content : String
  timestamp : ℚ
deriving DecidableEq

/-- The module-level mutable aggregates of monitor.py: `nodes` (a dict keyed by
node id, modelled as an insertion-ordered list with unique keys), `connections`
(a dict keyed by the ordered pair, likewise insertion-ordered) and `messages`
(a plain list). -/
structure MonitorState where
  nodes : List Node
  connections : List Connection
  messages : List Message
deriving DecidableEq

def MonitorState.empty : MonitorState := ⟨[], [], []⟩

/-- Python's substring test `needle in hay`, on character lists. -/
def containsSub (needle : List Char) : List Char → Bool
  | [] => needle.isPrefixOf []
  | c :: t => needle.isPrefixOf (c :: t) || containsSub needle t

/-- Python's `sub in s` on strings. -/
def strContains (s sub : String) : Bool := containsSub sub.data s.data

/-- Python's `s.split("-")` on character lists: split on the dash separator,
keeping empty fields. -/
def splitDash : List Char → List (List Char)
  | [] => [[]]
  | c :: t =>
    if c = '-' then [] :: splitDash t
    else
      match splitDash t with
      | h :: r => (c :: h) :: r
      | [] => [[c]]

/-- Python's `node_id.split("-")`. -/
def splitOnDash (s : String) : List String :=
  (splitDash s.data).map String.mk

/-- Mirrors `parse_federation_from_node_id` of monitor.py line by line:
the three named-marker substring checks in order, then the
`cross-federation` branch splitting on `-` and dispatching on the last part. -/
def parse_federation_from_node_id (node_id : String) : Option String :=
  if strContains node_id "federation-a" then some "federation-a"
  else if strContains node_id "federation-b" then some "federation-b"
  else if strContains node_id "federation-c" then some "federation-c"
  else if strContains node_id "cross-federation" then
    let parts := splitOnDash node_id
    if 3 ≤ parts.length then
      if parts.getLast? = some "ab" then some "federation-a+federation-b"
      else if parts.getLast? = some "bc" then some "federation-b+federation-c"
      else if parts.getLast? = some "ac" then some "federation-a+federation-c"
      else none
    else none
  else none

/-- The pure core of `Node.update_status`: the status string as a function of
the elapsed gap `now - last_seen`. -/
def update_status (gap : ℚ) : String :=
  if 30 < gap then "offline"
  else if 10 < gap then "inactive"
  else "active"

/-- One log line, as classified by the five regular expressions of monitor.py
(`NODE_INITIALIZED_RE`, `PEER_CONNECTED_RE`, `TUNNEL_CREATED_RE`,
`MESSAGE_SENT_RE`, `MESSAGE_RECEIVED_RE`); `unmatched` is a line matching
none of them. -/
inductive LogLine where
  | nodeInit (addr : String)
  | peerConnected (addr : String)
  | tunnelCreated (dest typ : String)
  | messageSent (dest content : String)
  | messageReceived (src content : String)
  | unmatched
deriving DecidableEq

/-- Dict lookup `nodes[id]` (dicts iterate in insertion order; keys are
unique, so `find?` returns the entry). -/
def findNode (ns : List Node) (id : String) : Option Node :=
  ns.find? (fun n => n.node_id == id)

/-- In-place mutation of the dict entry with key `id`. -/
def updateNode (ns : List Node) (id : String) (f : Node → Node) : List Node :=
  ns.map (fun n => if n.node_id == id then f n else n)

/-- `conn_key in connections`. -/
def hasConn (cs : List Connection) (src dst : String) : Bool :=
  cs.any (fun c => c.source == src && c.dest == dst)

/-- monitor.py lines 134-137: `nodes[node_id].address = match.group(1)`
(an unconditional overwrite). -/
def handleNodeInit (node_id addr : String) (st : MonitorState) : MonitorState :=
  { st with nodes := updateNode st.nodes node_id (fun n => { n with address := some addr }) }

/-- One iteration of the `for other_id, other_node in nodes.items()` loop of
the peer-connected handler (monitor.py lines 146-150): if the node advertises
the address and the key is absent, append a fresh connection. -/
def peerConnStep (node_id addr : String) (cs : List Connection) (n : Node) : List Connection :=
  if n.address == some addr then
    if hasConn cs node_id n.node_id then cs
    else cs ++ [Connection.init node_id n.node_id]
  else cs

/-- monitor.py lines 140-151: `nodes[node_id].peers.add(peer_addr)` then the
resolution loop over all known nodes. -/
def handlePeerConnected (node_id addr : String) (st : MonitorState) : MonitorState :=
  let ns := updateNode st.nodes node_id (fun n => { n with peers := insert addr n.peers })
  { st with nodes := ns, connections := ns.foldl (peerConnStep node_id addr) st.connections }

/-- `connections[conn_key].tunnel_type = tunnel_type` (monitor.py line 165):
overwrite the tunnel type of the entry with the given key. -/
def setTunnel (node_id nid typ : String) (c : Connection) : Connection :=
  if c.source == node_id && c.dest == nid then { c with tunnel_type := some typ } else c

/-- One iteration of the tunnel-created resolution loop (monitor.py lines
161-169): set the tunnel type on an existing connection, else append a fresh
connection carrying it. -/
def tunnelStep (node_id dest typ : String) (cs : List Connection) (n : Node) : List Connection :=
  if n.address == some dest then
    if hasConn cs node_id n.node_id then cs.map (setTunnel node_id n.node_id typ)
    else cs ++ [{ Connection.init node_id n.node_id with tunnel_type := some typ }]
  else cs

/-- monitor.py lines 154-170: `nodes[node_id].tunnels.add(tunnel_dest)` then
the resolution loop. -/
def handleTunnelCreated (node_id dest typ : String) (st : MonitorState) : MonitorState :=
  let ns := updateNode st.nodes node_id (fun n => { n with tunnels := insert dest n.tunnels })
  { st with nodes := ns, connections := ns.foldl (tunnelStep node_id dest typ) st.connections }

/-- monitor.py lines 188-191: `messages.append(msg)` then
`if len(messages) > 100: messages.pop(0)`. -/
def pushMessage (ms : List Message) (m : Message) : List Message :=
  let ms2 := ms ++ [m]
  if 100 < ms2.length then ms2.tail else ms2

/-- `connections[conn_key].messages += 1; connections[conn_key].last_message =
time.time()` (monitor.py lines 184-185): bump the counter of the entry with
the given key. -/
def bumpConn (node_id nid : String) (now : ℚ) (c : Connection) : Connection :=
  if c.source == node_id && c.dest == nid then
    { c with messages := c.messages + 1, last_message := now }
  else c

/-- One iteration of the message-sent resolution loop (monitor.py lines
180-191): increment the connection's counter when the key exists, and append
the message record (bounded at 100). -/
def msgStep (node_id dest content : String) (now : ℚ) (ts : Option ℚ)
    (acc : List Connection × List Message) (n : Node) : List Connection × List Message :=
  if n.address == some dest then
    let cs := if hasConn acc.1 node_id n.node_id then acc.1.map (bumpConn node_id n.node_id now)
      else acc.1
    (cs, pushMessage acc.2 ⟨node_id, n.node_id, content, ts.getD now⟩)
  else acc

/-- monitor.py lines 173-192: `nodes[node_id].messages_sent += 1` then the
resolution loop over all known nodes. -/
def handleMessageSent (node_id dest content : String) (now : ℚ) (ts : Option ℚ)
    (st : MonitorState) : MonitorState :=
  let ns := updateNode st.nodes node_id (fun n => { n with messages_sent := n.messages_sent + 1 })
  let r := ns.foldl (msgStep node_id dest content now ts) (st.connections, st.messages)
  { nodes := ns, connections := r.1, messages := r.2 }

/-- monitor.py lines 195-200: `nodes[node_id].messages_received += 1`. -/
def handleMessageReceived (node_id : String) (st : MonitorState) : MonitorState :=
  { st with nodes := updateNode st.nodes node_id (fun n => { n with messages_received := n.messages_received + 1 }) }

/-- The body of the per-line loop of `parse_logs` (monitor.py lines 122-200):
dispatch on the first matching grammar (`continue` after each handler). -/
def processLine (node_id : String) (now : ℚ) (ts : Option ℚ)
    (st : MonitorState) (line : LogLine) : MonitorState :=
  match line with
  | .nodeInit addr => handleNodeInit node_id addr st
  | .peerConnected addr => handlePeerConnected node_id addr st
  | .tunnelCreated dest typ => handleTunnelCreated node_id dest typ st
  | .messageSent dest content => handleMessageSent node_id dest content now ts st
  | .messageReceived _ _ => handleMessageReceived node_id st
  | .unmatched => st

/-- One log source: the node id derived from the file name, the file's
modification time, and its full current contents as classified lines, each
paired with the optional timestamp parsed from its bracketed prefix. -/
structure LogSource where
  node_id : String
  mtime : ℚ
  lines : List (Option ℚ × LogLine)

/-- monitor.py lines 113-114: create the node on first discovery of its
source, with the federation derived from its id. -/
def ensureNode (st : MonitorState) (id : String) : MonitorState :=
  if (findNode st.nodes id).isSome then st
  else { st with nodes := st.nodes ++ [Node.init id (parse_federation_from_node_id id)] }

/-- The per-file body of `parse_logs` (monitor.py lines 104-200): ensure the
node exists, refresh `last_seen` from the file's mtime, then stream every
line of the file (the whole file: the code keeps no per-source offset). -/
def processFile (now : ℚ) (st : MonitorState) (src : LogSource) : MonitorState :=
  let st1 := ensureNode st src.node_id
  let st2 := { st1 with
    nodes := updateNode st1.nodes src.node_id (fun n => { n with last_seen := src.mtime }) }
  src.lines.foldl (fun s tl => processLine src.node_id now tl.1 s tl.2) st2

/-- `parse_logs` (monitor.py lines 102-204): one ingestion pass over all
sources in directory-listing order, then `update_status` on every node. -/
def parse_logs (now : ℚ) (sources : List LogSource) (st : MonitorState) : MonitorState :=
  let st1 := sources.foldl (processFile now) st
  { st1 with nodes := st1.nodes.map (fun n => { n with status := update_status (now - n.last_seen) }) }

/-- The key of a connection dict entry. -/
def connKey (c : Connection) : String × String := (c.source, c.dest)

/-- The keys of the connection dict, in insertion order. -/
def connKeys (cs : List Connection) : List (String × String) :=
  cs.map connKey

/-- Every field of a connection except the tunnel type. -/
def connShape (c : Connection) : String × String × Nat × ℚ :=
  (c.source, c.dest, c.messages, c.last_message)

/-- A single log source whose one line is a message-sent event to an address
nobody advertises. -/
def c1src : LogSource := ⟨"node1", 0, [(none, .messageSent "addr-X" "hi")]⟩

/-- `A.log` of the spec's end-to-end scenario. -/
def srcA : LogSource := ⟨"A", 0, [(none, .nodeInit "addr-A"), (none, .messageSent "addr-B" "hello")]⟩

/-- `B.log` of the spec's end-to-end scenario. -/
def srcB : LogSource := ⟨"B", 0, [(none, .nodeInit "addr-B")]⟩

/-- Second source whose nodes double-advertise one overlay address. -/
def c5s1 : LogSource := ⟨"n1", 0, [(none, .nodeInit "addr-X")]⟩

/-- Twin of `c5s1` advertising the same address from another node. -/
def c5s2 : LogSource := ⟨"n2", 0, [(none, .nodeInit "addr-X")]⟩

/-- A node connecting to the doubly-advertised address. -/
def c5s3 : LogSource := ⟨"n3", 0, [(none, .peerConnected "addr-X")]⟩

/-- A source that initializes node `n2` with address `addr-2`. -/
def c8s2 : LogSource := ⟨"n2", 0, [(none, .nodeInit "addr-2")]⟩

/-- A source whose node connects to the peer address `addr-2`. -/
def c8s1 : LogSource := ⟨"n1", 0, [(none, .peerConnected "addr-2")]⟩

/-- A peer-connected line observed before its owner is known: `n1.log` is
listed before `n2.log`, so on the first pass `addr-2` has no known owner. -/
def c9sources : List LogSource :=
  [⟨"n1", 0, [(none, .peerConnected "addr-2")]⟩, ⟨"n2", 0, [(none, .nodeInit "addr-2")]⟩]

/-- A one-node state whose node `m` advertises address `a`. -/
def w5st : MonitorState :=
  ⟨[{ Node.init "m" none with address := some "a" }], [], []⟩

/-- A one-node state whose node `q` advertises address `b`. -/
def w8st : MonitorState :=
  ⟨[{ Node.init "q" none with address := some "b" }], [], []⟩

/-- A state in which node `p` already has `b` among its peers and the
connection `(p, q)` already exists: re-observing `Connected to peer: b` for
`p` is then a no-op. -/
def w10st : MonitorState :=
  ⟨[{ Node.init "p" none with peers := {"b"}, tunnels := {"b"} },
    { Node.init "q" none with address := some "b" }],
   [Connection.init "p" "q"], []⟩

/-! ### Helper lemmas about the embedded operations -/

lemma findNode_updateNode (ns : List Node) (id : String) (f : Node → Node)
    (hf : ∀ n, (f n).node_id = n.node_id) :
    findNode (updateNode ns id f) id = (findNode ns id).map f := by
  induction ns with
  | nil => rfl
  | cons n t ih =>
    by_cases h : (n.node_id == id) = true
    · have hfn : ((f n).node_id == id) = true := by rw [hf n]; exact h
      simp [findNode, updateNode, List.find?, h, hfn]
    · have h' : (n.node_id == id) = false := by simpa using h
      have hfn : ((f n).node_id == id) = false := by rw [hf n]; exact h'
      simpa [findNode, updateNode, List.find?, h', hfn] using ih

lemma any_updateNode (ns : List Node) (id : String) (f : Node → Node) (p : Node → Bool)
    (hf : ∀ n, p (f n) = p n) :
    (updateNode ns id f).any p = ns.any p := by
  unfold updateNode
  induction ns with
  | nil => rfl
  | cons n t ih =>
    rw [List.map_cons, List.any_cons, List.any_cons, ih]
    by_cases h : (n.node_id == id) = true
    · rw [if_pos h, hf]
    · rw [if_neg h]

lemma updateNode_eq_self (ns : List Node) (id : String) (f : Node → Node)
    (hf : ∀ n ∈ ns, (n.node_id == id) = true → f n = n) :
    updateNode ns id f = ns := by
  unfold updateNode
  induction ns with
  | nil => rfl
  | cons n t ih =>
    rw [List.map_cons]
    by_cases h : (n.node_id == id) = true
    · rw [if_pos h, hf n (List.mem_cons_self n t) h,
        ih (fun m hm hid => hf m (List.mem_cons_of_mem n hm) hid)]
    · rw [if_neg h, ih (fun m hm hid => hf m (List.mem_cons_of_mem n hm) hid)]

lemma hasConn_append_single (cs : List Connection) (c : Connection) (s d : String) :
    hasConn (cs ++ [c]) s d = (hasConn cs s d || (c.source == s && c.dest == d)) := by
  simp [hasConn]

lemma hasConn_init_self (cs : List Connection) (s d : String) :
    hasConn (cs ++ [Connection.init s d]) s d = true := by
  rw [hasConn_append_single]
  simp [Connection.init]

lemma hasConn_peerConnStep (node_id addr : String) (cs : List Connection) (n : Node)
    (s d : String) (h : hasConn cs s d = true) :
    hasConn (peerConnStep node_id addr cs n) s d = true := by
  unfold peerConnStep
  split_ifs with h1 h2
  · exact h
  · rw [hasConn_append_single, h, Bool.true_or]
  · exact h

lemma hasConn_foldl_peerConnStep (node_id addr s d : String) (l : List Node) :
    ∀ cs : List Connection, hasConn cs s d = true →
    hasConn (List.foldl (peerConnStep node_id addr) cs l) s d = true := by
  induction l with
  | nil => exact fun cs h => h
  | cons n t ih =>
    intro cs h
    exact ih _ (hasConn_peerConnStep _ _ _ _ _ _ h)

lemma peerConnStep_self (node_id addr : String) (cs : List Connection) (n : Node)
    (h : (n.address == some addr) = true) :
    hasConn (peerConnStep node_id addr cs n) node_id n.node_id = true := by
  unfold peerConnStep
  rw [if_pos h]
  by_cases h2 : hasConn cs node_id n.node_id = true
  · rw [if_pos h2]; exact h2
  · rw [if_neg h2]; exact hasConn_init_self cs node_id n.node_id

lemma foldl_peerConnStep_adv (node_id addr : String) (l : List Node) (cs : List Connection)
    (n : Node) (hn : n ∈ l) (ha : (n.address == some addr) = true) :
    hasConn (List.foldl (peerConnStep node_id addr) cs l) node_id n.node_id = true := by
  obtain ⟨s1, s2, rfl⟩ := List.append_of_mem hn
  rw [List.foldl_append, List.foldl_cons]
  exact hasConn_foldl_peerConnStep _ _ _ _ _ _ (peerConnStep_self _ _ _ _ ha)

lemma foldl_peerConnStep_nomatch (node_id addr : String) (l : List Node) :
    ∀ cs : List Connection, (∀ n ∈ l, (n.address == some addr) = false) →
    List.foldl (peerConnStep node_id addr) cs l = cs := by
  induction l with
  | nil => exact fun cs _ => rfl
  | cons a t ih =>
    intro cs h
    rw [List.foldl_cons]
    have ha := h a (List.mem_cons_self a t)
    simp only [peerConnStep, ha]
    rw [if_neg (by simp [ha])]
    exact ih cs (fun n hn => h n (List.mem_cons_of_mem a hn))

lemma connKey_setTunnel (node_id nid typ : String) (c : Connection) :
    connKey (setTunnel node_id nid typ c) = connKey c := by
  unfold setTunnel
  split_ifs <;> rfl

lemma connShape_setTunnel (node_id nid typ : String) (c : Connection) :
    connShape (setTunnel node_id nid typ c) = connShape c := by
  unfold setTunnel
  split_ifs <;> rfl

lemma connKey_bumpConn (node_id nid : String) (now : ℚ) (c : Connection) :
    connKey (bumpConn node_id nid now c) = connKey c := by
  unfold bumpConn
  split_ifs <;> rfl

lemma hasConn_eq_mem_connKeys (cs : List Connection) (s d : String) :
    hasConn cs s d = true ↔ (s, d) ∈ connKeys cs := by
  constructor
  · intro h
    obtain ⟨c, hc, hprop⟩ := List.any_eq_true.mp h
    obtain ⟨h1, h2⟩ := Bool.and_eq_true_iff.mp hprop
    exact List.mem_map.mpr ⟨c, hc, by
      unfold connKey
      rw [beq_iff_eq.mp h1, beq_iff_eq.mp h2]⟩
  · intro h
    obtain ⟨c, hc, hk⟩ := List.mem_map.mp h
    refine List.any_eq_true.mpr ⟨c, hc, ?_⟩
    unfold connKey at hk
    have h1 : c.source = s := congrArg Prod.fst hk
    have h2 : c.dest = d := congrArg Prod.snd hk
    rw [h1, h2, beq_self_eq_true, beq_self_eq_true]
    rfl

lemma hasConn_of_connKey_eq (g : Connection → Connection)
    (hg : ∀ c, connKey (g c) = connKey c) (cs : List Connection) (s d : String) :
    hasConn (cs.map g) s d = hasConn cs s d := by
  unfold hasConn
  rw [List.any_map]
  refine congrArg _ (funext fun c => ?_)
  have h1 : (g c).source = c.source := congrArg Prod.fst (hg c)
  have h2 : (g c).dest = c.dest := congrArg Prod.snd (hg c)
  simp [Function.comp, h1, h2]

lemma connKeys_map_of_connKey_eq (g : Connection → Connection)
    (hg : ∀ c, connKey (g c) = connKey c) (cs : List Connection) :
    connKeys (cs.map g) = connKeys cs := by
  unfold connKeys
  rw [List.map_map]
  exact List.map_congr_left (fun c _ => hg c)

lemma connKeys_append_single (cs : List Connection) (c : Connection) :
    connKeys (cs ++ [c]) = connKeys cs ++ [connKey c] := by
  simp [connKeys]

lemma exists_mem_updateNode (ns : List Node) (id : String) (f : Node → Node)
    (hid : ∀ n, (f n).node_id = n.node_id) (haddr : ∀ n, (f n).address = n.address)
    (n : Node) (hn : n ∈ ns) :
    ∃ m ∈ updateNode ns id f, m.node_id = n.node_id ∧ m.address = n.address := by
  by_cases h : (n.node_id == id) = true
  · exact ⟨f n, List.mem_map.mpr ⟨n, hn, by rw [if_pos h]⟩, hid n, haddr n⟩
  · exact ⟨n, List.mem_map.mpr ⟨n, hn, by rw [if_neg h]⟩, rfl, rfl⟩

lemma foldl_peerConnStep_allknown (node_id addr : String) (l : List Node) :
    ∀ cs : List Connection,
    (∀ n ∈ l, (n.address == some addr) = true → hasConn cs node_id n.node_id = true) →
    List.foldl (peerConnStep node_id addr) cs l = cs := by
  induction l with
  | nil => exact fun cs _ => rfl
  | cons a t ih =>
    intro cs h
    rw [List.foldl_cons]
    by_cases ha : (a.address == some addr) = true
    · have hc := h a (List.mem_cons_self a t) ha
      simp only [peerConnStep, if_pos ha, if_pos hc]
      exact ih cs (fun n hn hna => h n (List.mem_cons_of_mem a hn) hna)
    · simp only [peerConnStep, if_neg ha]
      exact ih cs (fun n hn hna => h n (List.mem_cons_of_mem a hn) hna)

lemma foldl_tunnelStep_nomatch (node_id dest typ : String) (l : List Node) :
    ∀ cs : List Connection, (∀ n ∈ l, (n.address == some dest) = false) →
    List.foldl (tunnelStep node_id dest typ) cs l = cs := by
  induction l with
  | nil => exact fun cs _ => rfl
  | cons a t ih =>
    intro cs h
    have ha := h a (List.mem_cons_self a t)
    rw [List.foldl_cons]
    simp only [tunnelStep]
    rw [if_neg (by simp [ha])]
    exact ih cs (fun n hn => h n (List.mem_cons_of_mem a hn))

lemma foldl_tunnelStep_allknown (node_id dest typ : String) (l : List Node) :
    ∀ cs : List Connection,
    (∀ n ∈ l, (n.address == some dest) = true → hasConn cs node_id n.node_id = true) →
    (List.foldl (tunnelStep node_id dest typ) cs l).map connShape = cs.map connShape ∧
    connKeys (List.foldl (tunnelStep node_id dest typ) cs l) = connKeys cs := by
  induction l with
  | nil => exact fun cs _ => ⟨rfl, rfl⟩
  | cons a t ih =>
    intro cs h
    rw [List.foldl_cons]
    by_cases ha : (a.address == some dest) = true
    · have hc := h a (List.mem_cons_self a t) ha
      simp only [tunnelStep, if_pos ha, if_pos hc]
      have hkeys := connKeys_map_of_connKey_eq (setTunnel node_id a.node_id typ)
        (connKey_setTunnel node_id a.node_id typ) cs
      have hshape : (cs.map (setTunnel node_id a.node_id typ)).map connShape = cs.map connShape := by
        rw [List.map_map]
        exact List.map_congr_left (fun c _ => connShape_setTunnel node_id a.node_id typ c)
      obtain ⟨ih1, ih2⟩ := ih (cs.map (setTunnel node_id a.node_id typ)) (fun n hn hna => by
        rw [hasConn_of_connKey_eq _ (connKey_setTunnel node_id a.node_id typ)]
        exact h n (List.mem_cons_of_mem a hn) hna)
      exact ⟨ih1.trans hshape, ih2.trans hkeys⟩
    · simp only [tunnelStep, if_neg ha]
      exact ih cs (fun n hn hna => h n (List.mem_cons_of_mem a hn) hna)

lemma foldl_msgStep_nomatch (node_id dest content : String) (now : ℚ) (ts : Option ℚ)
    (l : List Node) :
    ∀ acc : List Connection × List Message, (∀ n ∈ l, (n.address == some dest) = false) →
    List.foldl (msgStep node_id dest content now ts) acc l = acc := by
  induction l with
  | nil => exact fun acc _ => rfl
  | cons a t ih =>
    intro acc h
    have ha := h a (List.mem_cons_self a t)
    rw [List.foldl_cons]
    simp only [msgStep]
    rw [if_neg (by simp [ha])]
    exact ih acc (fun n hn => h n (List.mem_cons_of_mem a hn))

lemma pushMessage_length_le (ms : List Message) (m : Message) (h : ms.length ≤ 100) :
    (pushMessage ms m).length ≤ 100 := by
  unfold pushMessage
  by_cases h2 : 100 < (ms ++ [m]).length
  · rw [if_pos h2]
    simp only [List.length_tail, List.length_append, List.length_singleton]
    omega
  · rw [if_neg h2]
    simp only [List.length_append, List.length_singleton] at h2 ⊢
    omega

lemma pushMessage_lt (ms : List Message) (m : Message) (h : ms.length < 100) :
    pushMessage ms m = ms ++ [m] := by
  unfold pushMessage
  rw [if_neg (by simp; omega)]

lemma pushMessage_full (ms : List Message) (m : Message) (h : ms.length = 100) :
    pushMessage ms m = ms.tail ++ [m] := by
  unfold pushMessage
  rw [if_pos (by simp [h])]
  cases ms with
  | nil => simp at h
  | cons a t => rfl

lemma foldl_msgStep_snd_length (node_id dest content : String) (now : ℚ) (ts : Option ℚ)
    (l : List Node) :
    ∀ acc : List Connection × List Message, acc.2.length ≤ 100 →
    (List.foldl (msgStep node_id dest content now ts) acc l).2.length ≤ 100 := by
  induction l with
  | nil => exact fun acc h => h
  | cons a t ih =>
    intro acc h
    rw [List.foldl_cons]
    refine ih _ ?_
    unfold msgStep
    split_ifs
    · exact pushMessage_length_le _ _ h
    · exact pushMessage_length_le _ _ h
    · exact h

lemma foldl_msgStep_fst_connKeys (node_id dest content : String) (now : ℚ) (ts : Option ℚ)
    (l : List Node) :
    ∀ acc : List Connection × List Message,
    connKeys (List.foldl (msgStep node_id dest content now ts) acc l).1 = connKeys acc.1 := by
  induction l with
  | nil => exact fun acc => rfl
  | cons a t ih =>
    intro acc
    rw [List.foldl_cons, ih]
    unfold msgStep
    split_ifs with h1 h2
    · exact connKeys_map_of_connKey_eq _ (connKey_bumpConn node_id a.node_id now) acc.1
    · rfl
    · rfl

lemma connKeys_nodup_peerConnStep (node_id addr : String) (cs : List Connection) (n : Node)
    (h : (connKeys cs).Nodup) : (connKeys (peerConnStep node_id addr cs n)).Nodup := by
  unfold peerConnStep
  split_ifs with h1 h2
  · exact h
  · rw [connKeys_append_single, List.nodup_append]
    refine ⟨h, List.nodup_singleton _, ?_⟩
    intro k hk hk2
    rw [List.mem_singleton] at hk2
    subst hk2
    exact h2 ((hasConn_eq_mem_connKeys cs node_id n.node_id).mpr hk)
  · exact h

lemma connKeys_nodup_tunnelStep (node_id dest typ : String) (cs : List Connection) (n : Node)
    (h : (connKeys cs).Nodup) : (connKeys (tunnelStep node_id dest typ cs n)).Nodup := by
  unfold tunnelStep
  split_ifs with h1 h2
  · rw [connKeys_map_of_connKey_eq _ (connKey_setTunnel node_id n.node_id typ)]
    exact h
  · rw [connKeys_append_single, List.nodup_append]
    refine ⟨h, List.nodup_singleton _, ?_⟩
    intro k hk hk2
    rw [List.mem_singleton] at hk2
    subst hk2
    exact h2 ((hasConn_eq_mem_connKeys cs node_id n.node_id).mpr hk)
  · exact h

lemma connKeys_nodup_foldl_peerConnStep (node_id addr : String) (l : List Node) :
    ∀ cs : List Connection, (connKeys cs).Nodup →
    (connKeys (List.foldl (peerConnStep node_id addr) cs l)).Nodup := by
  induction l with
  | nil => exact fun cs h => h
  | cons a t ih =>
    intro cs h
    exact ih _ (connKeys_nodup_peerConnStep node_id addr cs a h)

lemma connKeys_nodup_foldl_tunnelStep (node_id dest typ : String) (l : List Node) :
    ∀ cs : List Connection, (connKeys cs).Nodup →
    (connKeys (List.foldl (tunnelStep node_id dest typ) cs l)).Nodup := by
  induction l with
  | nil => exact fun cs h => h
  | cons a t ih =>
    intro cs h
    exact ih _ (connKeys_nodup_tunnelStep node_id dest typ cs a h)

lemma parse_logs_preserves (P : MonitorState → Prop)
    (hline : ∀ node_id now ts st line, P st → P (processLine node_id now ts st line))
    (hnodes : ∀ (st : MonitorState) (ns : List Node), P st → P { st with nodes := ns }) :
    ∀ (now : ℚ) (sources : List LogSource) (st : MonitorState),
    P st → P (parse_logs now sources st) := by
  intro now sources
  have hlines : ∀ (id : String) (l : List (Option ℚ × LogLine)) (s : MonitorState), P s →
      P (l.foldl (fun s tl => processLine id now tl.1 s tl.2) s) := by
    intro id l
    induction l with
    | nil => exact fun s h => h
    | cons a t ih => exact fun s h => ih _ (hline _ _ _ _ _ h)
  have hfile : ∀ (src : LogSource) (s : MonitorState), P s → P (processFile now s src) := by
    intro src s h
    have h1 : P (ensureNode s src.node_id) := by
      unfold ensureNode
      split_ifs
      · exact h
      · exact hnodes _ _ h
    exact hlines _ _ _ (hnodes _ _ h1)
  have hfold : ∀ (ss : List LogSource) (s : MonitorState), P s →
      P (ss.foldl (processFile now) s) := by
    intro ss
    induction ss with
    | nil => exact fun s h => h
    | cons a t ih => exact fun s h => ih _ (hfile a s h)
  intro st h
  exact hnodes _ _ (hfold sources st h)

lemma processLine_messages_length (node_id : String) (now : ℚ) (ts : Option ℚ)
    (st : MonitorState) (line : LogLine) (h : st.messages.length ≤ 100) :
    (processLine node_id now ts st line).messages.length ≤ 100 := by
  cases line with
  | messageSent dest content =>
    exact foldl_msgStep_snd_length node_id dest content now ts _ (st.connections, st.messages) h
  | nodeInit addr => exact h
  | peerConnected addr => exact h
  | tunnelCreated dest typ => exact h
  | messageReceived src content => exact h
  | unmatched => exact h

lemma processLine_connKeys_nodup (node_id : String) (now : ℚ) (ts : Option ℚ)
    (st : MonitorState) (line : LogLine) (h : (connKeys st.connections).Nodup) :
    (connKeys (processLine node_id now ts st line).connections).Nodup := by
  cases line with
  | messageSent dest content =>
    show (connKeys (List.foldl (msgStep node_id dest content now ts)
      (st.connections, st.messages) _).1).Nodup
    rw [foldl_msgStep_fst_connKeys]
    exact h
  | nodeInit addr => exact h
  | peerConnected addr =>
    exact connKeys_nodup_foldl_peerConnStep node_id addr _ st.connections h
  | tunnelCreated dest typ =>
    exact connKeys_nodup_foldl_tunnelStep node_id dest typ _ st.connections h
  | messageReceived src content => exact h
  | unmatched => exact h

/-! ### Claims -/

/-- C1: the spec requires that each qualifying log line contribute to the
counters exactly once across repeated ingestion passes; the code re-parses
whole files on every pass, so with no new appended content `messages_sent`
for `node1` is 1 after the first pass but 2 after a second identical pass. -/
theorem C1_recount_on_second_pass :
    ((findNode (parse_logs 0 [c1src] MonitorState.empty).nodes "node1").map
        Node.messages_sent) = some 1 ∧
    ((findNode (parse_logs 0 [c1src] (parse_logs 0 [c1src] MonitorState.empty)).nodes
        "node1").map Node.messages_sent) = some 2 := by
  exact ⟨by decide, by decide⟩

/-- C2 (counterexample): in the end-to-end scenario with `B.log` processed
before `A.log`, no ConnectionRecord keyed `(A, B)` exists after the pass,
contrary to the claim: the message-sent handler never creates connections. -/
theorem C2_counterexample :
    hasConn (parse_logs 0 [srcB, srcA] MonitorState.empty).connections "A" "B" = false := by
  decide

/-- C2 (amended): after one pass with B's init processed before A's send,
node A has `messages_sent = 1` and the message sequence holds exactly the
record `(A, B, "hello")`, but the connection dict stays empty — message-sent
events only increment pre-existing connections, they never create one. -/
theorem C2_amended :
    ((findNode (parse_logs 0 [srcB, srcA] MonitorState.empty).nodes "A").map
        Node.messages_sent) = some 1 ∧
    (parse_logs 0 [srcB, srcA] MonitorState.empty).connections = [] ∧
    (parse_logs 0 [srcB, srcA] MonitorState.empty).messages.map
        (fun m => (m.source, m.dest, m.content)) = [("A", "B", "hello")] := by
  exact ⟨by decide, by decide, by decide⟩

/-- C3 (counterexample): `cross-federation-bridge-ab` classifies as
`federation-b`, not as the composite `federation-a+federation-b`: the string
contains the `federation-b` marker (inside `federation-bridge`), and that
check runs before the cross-federation suffix branch. -/
theorem C3_counterexample :
    parse_federation_from_node_id "cross-federation-bridge-ab" = some "federation-b" ∧
    parse_federation_from_node_id "cross-federation-bridge-ab" ≠
      some "federation-a+federation-b" := by
  exact ⟨by decide, by decide⟩

/-- C3 (amended): the named-marker cases hold with priority a, then b, then c;
all three `cross-federation-bridge-xy` identities classify as `federation-b`
(the `federation-b` marker is a substring of `federation-bridge`); the
composite labels `a+b`, `b+c` and `a+c` arise exactly for identities
containing `cross-federation` but no single-federation marker, with at least
three dash-separated parts and last part `ab`, `bc` or `ac` respectively —
an unrecognized last part, or fewer than three parts, yields no federation,
as does an identity with no marker at all; and the classifier is a
deterministic pure function. -/
theorem C3_amended :
    (∀ id, strContains id "federation-a" = true →
        parse_federation_from_node_id id = some "federation-a") ∧
    (∀ id, strContains id "federation-a" = false → strContains id "federation-b" = true →
        parse_federation_from_node_id id = some "federation-b") ∧
    (∀ id, strContains id "federation-a" = false → strContains id "federation-b" = false →
        strContains id "federation-c" = true →
        parse_federation_from_node_id id = some "federation-c") ∧
    (parse_federation_from_node_id "cross-federation-bridge-ab" = some "federation-b" ∧
     parse_federation_from_node_id "cross-federation-bridge-bc" = some "federation-b" ∧
     parse_federation_from_node_id "cross-federation-bridge-ac" = some "federation-b") ∧
    (∀ id, strContains id "federation-a" = false → strContains id "federation-b" = false →
        strContains id "federation-c" = false → strContains id "cross-federation" = true →
        3 ≤ (splitOnDash id).length → (splitOnDash id).getLast? = some "ab" →
        parse_federation_from_node_id id = some "federation-a+federation-b") ∧
    (∀ id, strContains id "federation-a" = false → strContains id "federation-b" = false →
        strContains id "federation-c" = false → strContains id "cross-federation" = true →
        3 ≤ (splitOnDash id).length → (splitOnDash id).getLast? = some "bc" →
        parse_federation_from_node_id id = some "federation-b+federation-c") ∧
    (∀ id, strContains id "federation-a" = false → strContains id "federation-b" = false →
        strContains id "federation-c" = false → strContains id "cross-federation" = true →
        3 ≤ (splitOnDash id).length → (splitOnDash id).getLast? = some "ac" →
        parse_federation_from_node_id id = some "federation-a+federation-c") ∧
    (∀ id, strContains id "federation-a" = false → strContains id "federation-b" = false →
        strContains id "federation-c" = false → strContains id "cross-federation" = true →
        3 ≤ (splitOnDash id).length → (splitOnDash id).getLast? ≠ some "ab" →
        (splitOnDash id).getLast? ≠ some "bc" → (splitOnDash id).getLast? ≠ some "ac" →
        parse_federation_from_node_id id = none) ∧
    (∀ id, strContains id "federation-a" = false → strContains id "federation-b" = false →
        strContains id "federation-c" = false → strContains id "cross-federation" = true →
        ¬ 3 ≤ (splitOnDash id).length →
        parse_federation_from_node_id id = none) ∧
    (∀ id, strContains id "federation-a" = false → strContains id "federation-b" = false →
        strContains id "federation-c" = false → strContains id "cross-federation" = false →
        parse_federation_from_node_id id = none) ∧
    (∀ id, parse_federation_from_node_id id = parse_federation_from_node_id id) := by
  refine ⟨?_, ?_, ?_, ⟨by decide, by decide, by decide⟩, ?_, ?_, ?_, ?_, ?_, ?_,
    fun id => rfl⟩
  · intro id h
    unfold parse_federation_from_node_id
    rw [if_pos h]
  · intro id ha hb
    unfold parse_federation_from_node_id
    rw [if_neg (by simp [ha]), if_pos hb]
  · intro id ha hb hc
    unfold parse_federation_from_node_id
    rw [if_neg (by simp [ha]), if_neg (by simp [hb]), if_pos hc]
  · intro id ha hb hc hcross hlen hlast
    unfold parse_federation_from_node_id
    rw [if_neg (by simp [ha]), if_neg (by simp [hb]), if_neg (by simp [hc]), if_pos hcross]
    simp only [if_pos hlen, if_pos hlast]
  · intro id ha hb hc hcross hlen hlast
    unfold parse_federation_from_node_id
    rw [if_neg (by simp [ha]), if_neg (by simp [hb]), if_neg (by simp [hc]), if_pos hcross]
    have hab : (splitOnDash id).getLast? ≠ some "ab" := by rw [hlast]; decide
    simp only [if_pos hlen, if_neg hab, if_pos hlast]
  · intro id ha hb hc hcross hlen hlast
    unfold parse_federation_from_node_id
    rw [if_neg (by simp [ha]), if_neg (by simp [hb]), if_neg (by simp [hc]), if_pos hcross]
    have hab : (splitOnDash id).getLast? ≠ some "ab" := by rw [hlast]; decide
    have hbc : (splitOnDash id).getLast? ≠ some "bc" := by rw [hlast]; decide
    simp only [if_pos hlen, if_neg hab, if_neg hbc, if_pos hlast]
  · intro id ha hb hc hcross hlen hab hbc hac
    unfold parse_federation_from_node_id
    rw [if_neg (by simp [ha]), if_neg (by simp [hb]), if_neg (by simp [hc]), if_pos hcross]
    simp only [if_pos hlen, if_neg hab, if_neg hbc, if_neg hac]
  · intro id ha hb hc hcross hlen
    unfold parse_federation_from_node_id
    rw [if_neg (by simp [ha]), if_neg (by simp [hb]), if_neg (by simp [hc]), if_pos hcross]
    simp only [if_neg hlen]
  · intro id ha hb hc hcross
    unfold parse_federation_from_node_id
    rw [if_neg (by simp [ha]), if_neg (by simp [hb]), if_neg (by simp [hc]),
      if_neg (by simp [hcross])]

/-- Witness for C3 (amended): every hypothesis-bearing case instantiated at a
concrete identity — one per marker, one per composite suffix, an unrecognized
suffix, a too-short split, and a marker-free identity. -/
theorem C3_amended_witness :
    parse_federation_from_node_id "federation-a-node-1" = some "federation-a" ∧
    parse_federation_from_node_id "kross-federation-b-node" = some "federation-b" ∧
    parse_federation_from_node_id "kross-federation-c-node" = some "federation-c" ∧
    parse_federation_from_node_id "cross-federation-x-ab" = some "federation-a+federation-b" ∧
    parse_federation_from_node_id "cross-federation-x-bc" = some "federation-b+federation-c" ∧
    parse_federation_from_node_id "cross-federation-x-ac" = some "federation-a+federation-c" ∧
    parse_federation_from_node_id "cross-federation-x-zz" = none ∧
    parse_federation_from_node_id "cross-federation" = none ∧
    parse_federation_from_node_id "plain-node" = none := by
  obtain ⟨hA, hB, hC, hbr, hab, hbc, hac, hzz, hshort, hnone, hdet⟩ := C3_amended
  exact ⟨hA "federation-a-node-1" (by decide),
    hB "kross-federation-b-node" (by decide) (by decide),
    hC "kross-federation-c-node" (by decide) (by decide) (by decide),
    hab "cross-federation-x-ab" (by decide) (by decide) (by decide) (by decide)
      (by decide) (by decide),
    hbc "cross-federation-x-bc" (by decide) (by decide) (by decide) (by decide)
      (by decide) (by decide),
    hac "cross-federation-x-ac" (by decide) (by decide) (by decide) (by decide)
      (by decide) (by decide),
    hzz "cross-federation-x-zz" (by decide) (by decide) (by decide) (by decide)
      (by decide) (by decide) (by decide) (by decide),
    hshort "cross-federation" (by decide) (by decide) (by decide) (by decide) (by decide),
    hnone "plain-node" (by decide) (by decide) (by decide) (by decide)⟩

/-- C4 (counterexample): two node-initialized lines for node `n` with
different addresses leave the stored address equal to the LAST one
(`addr-2`), not the first: the handler overwrites unconditionally. -/
theorem C4_counterexample :
    ((findNode (parse_logs 0 [⟨"n", 0, [(none, .nodeInit "addr-1"), (none, .nodeInit "addr-2")]⟩]
        MonitorState.empty).nodes "n").map Node.address) = some (some "addr-2") ∧
    ((findNode (parse_logs 0 [⟨"n", 0, [(none, .nodeInit "addr-1"), (none, .nodeInit "addr-2")]⟩]
        MonitorState.empty).nodes "n").map Node.address) ≠ some (some "addr-1") := by
  exact ⟨by decide, by decide⟩

/-- C4 (amended): last observation wins: every node-initialized line
processed for a node overwrites its stored address with the captured one,
whatever was stored before. -/
theorem C4_amended (node_id : String) (now : ℚ) (ts : Option ℚ) (st : MonitorState)
    (addr : String) :
    findNode (processLine node_id now ts st (.nodeInit addr)).nodes node_id =
      (findNode st.nodes node_id).map (fun n => { n with address := some addr }) :=
  findNode_updateNode st.nodes node_id _ (fun _ => rfl)

/-- C7: the status classifier returns `offline` iff the gap exceeds 30,
`inactive` iff the gap lies in (10, 30], and `active` iff the gap is at most
10; in particular a gap of exactly 10 is `active` and a gap of 10.01 is
`inactive`. -/
theorem C7_status_classifier :
    (∀ g : ℚ, (update_status g = "offline" ↔ 30 < g) ∧
      (update_status g = "inactive" ↔ 10 < g ∧ g ≤ 30) ∧
      (update_status g = "active" ↔ g ≤ 10)) ∧
    update_status 10 = "active" ∧ update_status (1001 / 100 : ℚ) = "inactive" := by
  refine ⟨fun g => ⟨?_, ?_, ?_⟩, by decide, ?_⟩ <;>
    first
    | (unfold update_status
       split_ifs with h1 h2 <;> constructor <;> intro h <;> simp_all <;> linarith)
    | rw [update_status, if_neg (by norm_num), if_pos (by norm_num)]

/-- C9: a peer-connected line whose address has no currently known owner
leaves the connection dict untouched (and raises no error); and in the
concrete two-source scenario, the first pass (owner's init listed after the
peer line) creates no connection while a second pass over the unchanged
sources re-observes the line and creates the `(n1, n2)` connection. -/
theorem C9_eventual_resolution :
    (∀ (node_id : String) (now : ℚ) (ts : Option ℚ) (st : MonitorState) (addr : String),
        (st.nodes.any (fun n => n.address == some addr)) = false →
        (processLine node_id now ts st (.peerConnected addr)).connections = st.connections) ∧
    (parse_logs 0 c9sources MonitorState.empty).connections = [] ∧
    hasConn (parse_logs 0 c9sources (parse_logs 0 c9sources MonitorState.empty)).connections
      "n1" "n2" = true := by
  refine ⟨?_, by decide, by decide⟩
  intro node_id now ts st addr h
  show (handlePeerConnected node_id addr st).connections = st.connections
  simp only [handlePeerConnected]
  apply foldl_peerConnStep_nomatch
  intro n hn
  have hany : (updateNode st.nodes node_id
      (fun n => { n with peers := insert addr n.peers })).any
      (fun n => n.address == some addr) = false :=
    (any_updateNode st.nodes node_id (fun n => { n with peers := insert addr n.peers })
      (fun n => n.address == some addr) (fun _ => rfl)).trans h
  simpa using (List.any_eq_false.mp hany) n hn

/-- Witness for C9: the no-owner case instantiated at the empty state. -/
theorem C9_eventual_resolution_witness :
    (MonitorState.empty.nodes.any (fun n => n.address == some "a")) = false ∧
    (processLine "x" 0 none MonitorState.empty (.peerConnected "a")).connections =
      MonitorState.empty.connections :=
  ⟨by decide, C9_eventual_resolution.1 "x" 0 none MonitorState.empty "a" (by decide)⟩

/-- C5 (counterexample): two nodes (`n1`, `n2`) both advertise `addr-X`; a
peer-connected event for `addr-X` on `n3` then creates a connection for EACH
advertiser — two new ConnectionRecords — instead of treating the ambiguous
address as unresolved and creating none. -/
theorem C5_counterexample :
    hasConn (parse_logs 0 [c5s1, c5s2, c5s3] MonitorState.empty).connections "n3" "n1" = true ∧
    hasConn (parse_logs 0 [c5s1, c5s2, c5s3] MonitorState.empty).connections "n3" "n2" = true ∧
    (parse_logs 0 [c5s1, c5s2, c5s3] MonitorState.empty).connections.length = 2 := by
  exact ⟨by decide, by decide, by decide⟩

/-- C5 (amended): resolution is a linear scan yielding EVERY node that
advertises the target address: when no node advertises it, peer-connected,
tunnel-created and message-sent events leave the connection dict (and, for
message-sent, the message list) unchanged; and a peer-connected event ensures
a connection `(self, m)` for each advertiser `m`, however many there are. -/
theorem C5_amended :
    (∀ (node_id : String) (now : ℚ) (ts : Option ℚ) (st : MonitorState) (addr : String),
        (st.nodes.any (fun n => n.address == some addr)) = false →
        (processLine node_id now ts st (.peerConnected addr)).connections = st.connections ∧
        (processLine node_id now ts st (.tunnelCreated addr "wireguard")).connections =
          st.connections ∧
        (processLine node_id now ts st (.messageSent addr "m")).connections = st.connections ∧
        (processLine node_id now ts st (.messageSent addr "m")).messages = st.messages) ∧
    (∀ (node_id : String) (now : ℚ) (ts : Option ℚ) (st : MonitorState) (addr : String)
        (n : Node), n ∈ st.nodes → n.address = some addr →
        hasConn (processLine node_id now ts st (.peerConnected addr)).connections
          node_id n.node_id = true) := by
  constructor
  · intro node_id now ts st addr h
    refine ⟨?_, ?_, ?_, ?_⟩
    · show (handlePeerConnected node_id addr st).connections = st.connections
      simp only [handlePeerConnected]
      apply foldl_peerConnStep_nomatch
      intro n hn
      have hany : (updateNode st.nodes node_id
          (fun n => { n with peers := insert addr n.peers })).any
          (fun n => n.address == some addr) = false :=
        (any_updateNode st.nodes node_id (fun n => { n with peers := insert addr n.peers })
          (fun n => n.address == some addr) (fun _ => rfl)).trans h
      simpa using (List.any_eq_false.mp hany) n hn
    · show (handleTunnelCreated node_id addr "wireguard" st).connections = st.connections
      simp only [handleTunnelCreated]
      apply foldl_tunnelStep_nomatch
      intro n hn
      have hany : (updateNode st.nodes node_id
          (fun n => { n with tunnels := insert addr n.tunnels })).any
          (fun n => n.address == some addr) = false :=
        (any_updateNode st.nodes node_id (fun n => { n with tunnels := insert addr n.tunnels })
          (fun n => n.address == some addr) (fun _ => rfl)).trans h
      simpa using (List.any_eq_false.mp hany) n hn
    all_goals
      have hany : (updateNode st.nodes node_id
          (fun n => { n with messages_sent := n.messages_sent + 1 })).any
          (fun n => n.address == some addr) = false :=
        (any_updateNode st.nodes node_id
          (fun n => { n with messages_sent := n.messages_sent + 1 })
          (fun n => n.address == some addr) (fun _ => rfl)).trans h
    all_goals
      have hall : ∀ n ∈ updateNode st.nodes node_id
          (fun n => { n with messages_sent := n.messages_sent + 1 }),
          (n.address == some addr) = false :=
        fun n hn => by simpa using (List.any_eq_false.mp hany) n hn
    · show (handleMessageSent node_id addr "m" now ts st).connections = st.connections
      simp only [handleMessageSent]
      rw [foldl_msgStep_nomatch node_id addr "m" now ts _ (st.connections, st.messages) hall]
    · show (handleMessageSent node_id addr "m" now ts st).messages = st.messages
      simp only [handleMessageSent]
      rw [foldl_msgStep_nomatch node_id addr "m" now ts _ (st.connections, st.messages) hall]
  · intro node_id now ts st addr n hn ha
    show hasConn (handlePeerConnected node_id addr st).connections node_id n.node_id = true
    simp only [handlePeerConnected]
    obtain ⟨m, hm, hmid, hmaddr⟩ := exists_mem_updateNode st.nodes node_id
      (fun n => { n with peers := insert addr n.peers }) (fun _ => rfl) (fun _ => rfl) n hn
    have hmb : (m.address == some addr) = true := by
      rw [hmaddr, ha]
      exact beq_self_eq_true _
    have h2 := foldl_peerConnStep_adv node_id addr _ st.connections m hm hmb
    rwa [hmid] at h2

/-- Witness for C5 (amended): the no-advertiser case at the empty state and
the per-advertiser case at a one-node state advertising `a`. -/
theorem C5_amended_witness :
    (MonitorState.empty.nodes.any (fun n => n.address == some "a")) = false ∧
    (processLine "x" 0 none MonitorState.empty (.peerConnected "a")).connections =
      MonitorState.empty.connections ∧
    hasConn (processLine "x" 0 none w5st (.peerConnected "a")).connections "x" "m" = true := by
  refine ⟨by decide, (C5_amended.1 "x" 0 none MonitorState.empty "a" (by decide)).1, ?_⟩
  exact C5_amended.2 "x" 0 none w5st "a" { Node.init "m" none with address := some "a" }
    (by simp [w5st]) rfl

/-- C8 (counterexample): after `n2` advertises `addr-2` and `n1` sees
`Connected to peer: addr-2`, node `n1`'s peer set is `{addr-2}` — the raw
overlay ADDRESS — and does not contain the resolved peer's node id `n2`. -/
theorem C8_counterexample :
    ((findNode (parse_logs 0 [c8s2, c8s1] MonitorState.empty).nodes "n1").map
        Node.peers) = some {"addr-2"} ∧
    ("n2" : String) ∉ ({"addr-2"} : Finset String) := by
  exact ⟨by decide, by decide⟩

/-- C8 (amended): a peer-connected event adds the peer's overlay ADDRESS to
the node's peer set, unconditionally — before and regardless of resolution —
and, for each node currently advertising that address, ensures a
ConnectionRecord for the ordered pair (self, advertiser). -/
theorem C8_amended :
    (∀ (node_id : String) (now : ℚ) (ts : Option ℚ) (st : MonitorState) (addr : String),
        findNode (processLine node_id now ts st (.peerConnected addr)).nodes node_id =
          (findNode st.nodes node_id).map (fun n => { n with peers := insert addr n.peers })) ∧
    (∀ (node_id : String) (now : ℚ) (ts : Option ℚ) (st : MonitorState) (addr : String)
        (n : Node), n ∈ st.nodes → n.address = some addr →
        hasConn (processLine node_id now ts st (.peerConnected addr)).connections
          node_id n.node_id = true) := by
  constructor
  · intro node_id now ts st addr
    exact findNode_updateNode st.nodes node_id _ (fun _ => rfl)
  · intro node_id now ts st addr n hn ha
    show hasConn (handlePeerConnected node_id addr st).connections node_id n.node_id = true
    simp only [handlePeerConnected]
    obtain ⟨m, hm, hmid, hmaddr⟩ := exists_mem_updateNode st.nodes node_id
      (fun n => { n with peers := insert addr n.peers }) (fun _ => rfl) (fun _ => rfl) n hn
    have hmb : (m.address == some addr) = true := by
      rw [hmaddr, ha]
      exact beq_self_eq_true _
    have h2 := foldl_peerConnStep_adv node_id addr _ st.connections m hm hmb
    rwa [hmid] at h2

/-- Witness for C8 (amended): the connection-ensuring part at a one-node
state whose node `q` advertises `b`. -/
theorem C8_amended_witness :
    hasConn (processLine "p" 0 none w8st (.peerConnected "b")).connections "p" "q" = true :=
  C8_amended.2 "p" 0 none w8st "b" { Node.init "q" none with address := some "b" }
    (by simp [w8st]) rfl

/-- C6: the bounded message sequence: a full ingestion pass keeps the global
message list at no more than 100 records whenever it started within bound;
below capacity an insertion appends at the end (insertion order preserved),
and at capacity it additionally evicts exactly the oldest record, leaving
the relative order of the rest unchanged. -/
theorem C6_message_bound :
    (∀ (now : ℚ) (sources : List LogSource) (st : MonitorState),
        st.messages.length ≤ 100 → (parse_logs now sources st).messages.length ≤ 100) ∧
    (∀ (ms : List Message) (m : Message), ms.length < 100 → pushMessage ms m = ms ++ [m]) ∧
    (∀ (ms : List Message) (m : Message), ms.length = 100 → pushMessage ms m = ms.tail ++ [m]) := by
  refine ⟨?_, pushMessage_lt, pushMessage_full⟩
  intro now sources st h
  exact parse_logs_preserves (fun s => s.messages.length ≤ 100)
    (fun node_id now2 ts s line hs => processLine_messages_length node_id now2 ts s line hs)
    (fun s ns hs => hs) now sources st h

/-- Witness for C6: the pass bound at the empty state and both insertion
regimes at concrete lists. -/
theorem C6_message_bound_witness :
    (parse_logs 0 [c1src] MonitorState.empty).messages.length ≤ 100 ∧
    pushMessage [] ⟨"a", "b", "hi", 0⟩ = [] ++ [⟨"a", "b", "hi", 0⟩] ∧
    pushMessage (List.replicate 100 ⟨"a", "b", "hi", 0⟩) ⟨"c", "d", "ho", 0⟩ =
      (List.replicate 100 (⟨"a", "b", "hi", 0⟩ : Message)).tail ++ [⟨"c", "d", "ho", 0⟩] :=
  ⟨C6_message_bound.1 0 [c1src] MonitorState.empty (by decide),
   C6_message_bound.2.1 [] ⟨"a", "b", "hi", 0⟩ (by decide),
   C6_message_bound.2.2 (List.replicate 100 ⟨"a", "b", "hi", 0⟩) ⟨"c", "d", "ho", 0⟩
     (by simp)⟩

/-- C10: re-processing an already-applied peer-connected line (address in the
peer set, connections present for every advertiser) is the identity on the
whole state; re-processing a tunnel-created line under the analogous
hypotheses leaves the nodes, the messages, and every connection field except
the tunnel type unchanged; and a full ingestion pass preserves uniqueness of
the connection keys, so at most one ConnectionRecord ever exists per ordered
pair. -/
theorem C10_reprocessing_idempotent :
    (∀ (node_id : String) (now : ℚ) (ts : Option ℚ) (st : MonitorState) (addr : String),
        (∀ m ∈ st.nodes, m.node_id = node_id → addr ∈ m.peers) →
        (∀ m ∈ st.nodes, m.address = some addr → hasConn st.connections node_id m.node_id = true) →
        processLine node_id now ts st (.peerConnected addr) = st) ∧
    (∀ (node_id : String) (now : ℚ) (ts : Option ℚ) (st : MonitorState) (dest typ : String),
        (∀ m ∈ st.nodes, m.node_id = node_id → dest ∈ m.tunnels) →
        (∀ m ∈ st.nodes, m.address = some dest → hasConn st.connections node_id m.node_id = true) →
        (processLine node_id now ts st (.tunnelCreated dest typ)).nodes = st.nodes ∧
        (processLine node_id now ts st (.tunnelCreated dest typ)).messages = st.messages ∧
        (processLine node_id now ts st (.tunnelCreated dest typ)).connections.map connShape =
          st.connections.map connShape) ∧
    (∀ (now : ℚ) (sources : List LogSource) (st : MonitorState),
        (connKeys st.connections).Nodup →
        (connKeys (parse_logs now sources st).connections).Nodup) := by
  refine ⟨?_, ?_, ?_⟩
  · intro node_id now ts st addr hpeers hconns
    show handlePeerConnected node_id addr st = st
    simp only [handlePeerConnected]
    have hns : updateNode st.nodes node_id
        (fun n => { n with peers := insert addr n.peers }) = st.nodes := by
      apply updateNode_eq_self
      intro n hn hid
      have hmem : insert addr n.peers = n.peers :=
        Finset.insert_eq_self.mpr (hpeers n hn (beq_iff_eq.mp hid))
      rw [hmem]
    rw [hns, foldl_peerConnStep_allknown node_id addr st.nodes st.connections
      (fun n hn hna => hconns n hn (beq_iff_eq.mp hna))]
  · intro node_id now ts st dest typ htunnels hconns
    have hns : updateNode st.nodes node_id
        (fun n => { n with tunnels := insert dest n.tunnels }) = st.nodes := by
      apply updateNode_eq_self
      intro n hn hid
      have hmem : insert dest n.tunnels = n.tunnels :=
        Finset.insert_eq_self.mpr (htunnels n hn (beq_iff_eq.mp hid))
      rw [hmem]
    refine ⟨?_, rfl, ?_⟩
    · show (handleTunnelCreated node_id dest typ st).nodes = st.nodes
      simp only [handleTunnelCreated]
      rw [hns]
    · show (handleTunnelCreated node_id dest typ st).connections.map connShape =
        st.connections.map connShape
      simp only [handleTunnelCreated]
      rw [hns]
      exact (foldl_tunnelStep_allknown node_id dest typ st.nodes st.connections
        (fun n hn hna => hconns n hn (beq_iff_eq.mp hna))).1
  · intro now sources st h
    exact parse_logs_preserves (fun s => (connKeys s.connections).Nodup)
      (fun node_id now2 ts s line hs => processLine_connKeys_nodup node_id now2 ts s line hs)
      (fun s ns hs => hs) now sources st h

/-- Witness for C10: re-processing `Connected to peer: b` and
`Created tunnel to b using wg` on a state where they are already applied, and
the key-uniqueness invariant at the empty state. -/
theorem C10_reprocessing_idempotent_witness :
    processLine "p" 0 none w10st (.peerConnected "b") = w10st ∧
    (processLine "p" 0 none w10st (.tunnelCreated "b" "wg")).connections.map connShape =
      w10st.connections.map connShape ∧
    (connKeys (parse_logs 0 c9sources MonitorState.empty).connections).Nodup :=
  ⟨C10_reprocessing_idempotent.1 "p" 0 none w10st "b" (by decide) (by decide),
   (C10_reprocessing_idempotent.2.1 "p" 0 none w10st "b" "wg" (by decide) (by decide)).2.2,
   C10_reprocessing_idempotent.2.2 0 c9sources MonitorState.empty (by decide)⟩
